import Mathlib

/-!
Shallow embedding of the certificate normalization and grouping engine of
this repository.  The engine exists twice — a Go version
(`src/services/certificates.go`) and a TypeScript version
(`src/workers/src/certificates.ts`, duplicated in the unnamed worker file)
— plus a CTSentry variant (`processCTSentryResponse` in the unnamed file).
Both versions are translated here; Go identifiers keep their capitalized
names (`FilterByNotBefore`, `GroupByIssuer`), TypeScript ones their
camelCase names (`filterByNotBefore`, `groupByIssuer`).

Conventions of the embedding:
* time instants are modelled as `Nat` via a strictly monotone encoding of
  `(year, month, day, hour, minute, second)`; only order and equality of
  instants matter to the verified properties;
* `Option Nat` models a JavaScript `Date` value: `none` is `Invalid Date`
  (`NaN` time value), and any relational comparison involving `none` is
  `false`, as in JavaScript;
* Go's `time.Parse` and the JavaScript `Date` constructor are modelled by
  explicit character-level parsers for the two layouts the code uses
  (`2006-01-02` and `2006-01-02T15:04:05`); day-of-month validation is
  simplified to the range 1–31;
* Go's `map` has unspecified iteration order, so the Go `GroupByIssuer` is
  parametrised by the iteration order of the issuer keys; JavaScript `Map`
  iterates in insertion order, so the TypeScript `groupByIssuer` needs no
  such parameter;
* JavaScript's locale-aware `localeCompare` and Go's byte-wise `<` on
  strings are both modelled by the code-point lexicographic order
  `strLeb` (the two agree on the ASCII issuer names this code handles);
* `Array.prototype.sort` and Go's `sort.Slice` are modelled by
  `List.insertionSort` (a deterministic comparison sort).
-/

open List

/-! ### Character-level string helpers

The TypeScript code uses `issuerName.split(', ')`, `part.trim()`,
`trimmed.startsWith('O=')`, `trimmed.substring(2)`; the Go code uses
`strings.Split(issuerName, ", ")`, `strings.TrimSpace`, the `O=` / `CN=`
tests and the corresponding trims.  They are modelled on `List Char` so
that every definition reduces inside the kernel. -/

/-- Whitespace as removed by JavaScript `trim` / Go `TrimSpace`
(restricted to the four common ASCII whitespace characters). -/
def isSpaceChar (c : Char) : Bool :=
  c = ' ' ∨ c = '\t' ∨ c = '\n' ∨ c = '\r'

/-- Remove leading and trailing whitespace (JS `trim`, Go `TrimSpace`). -/
def trimChars (l : List Char) : List Char :=
  ((l.dropWhile isSpaceChar).reverse.dropWhile isSpaceChar).reverse

/-- Split a character list on the two-character separator `", "`
(JS `split(', ')`, Go `strings.Split(s, ", ")`).  `acc` holds the
characters of the current field in reverse. -/
def splitCS : List Char → List Char → List (List Char)
  | [], acc => [acc.reverse]
  | ',' :: ' ' :: rest, acc => acc.reverse :: splitCS rest []
  | c :: rest, acc => splitCS rest (c :: acc)

/-- The components of a string-encoded distinguished name: split on
`", "` (neither implementation trims here; trimming happens per part in
the extraction loop). -/
def dnParts (s : String) : List (List Char) :=
  splitCS s.data []

/-! ### Date parsing -/

/-- Value of a decimal digit, `none` for a non-digit. -/
def digitVal (c : Char) : Option Nat :=
  if '0' ≤ c ∧ c ≤ '9' then some (c.toNat - '0'.toNat) else none

/-- Values of a list of decimal digits, `none` if any is not a digit. -/
def digitsVal : List Char → Option (List Nat)
  | [] => some []
  | c :: rest =>
    match digitVal c, digitsVal rest with
    | some d, some ds => some (d :: ds)
    | _, _ => none

/-- Strictly monotone encoding of a calendar timestamp as an instant.
Months are < 13, days < 32, hours < 24, minutes and seconds < 60, so the
encoding is injective and order-preserving on valid timestamps. -/
def encodeInstant (y mo d h mi s : Nat) : Nat :=
  ((((y * 13 + mo) * 32 + d) * 24 + h) * 60 + mi) * 60 + s

/-- Parse the 10-character layout `2006-01-02` (Go `time.Parse` with that
layout; result is midnight of that day).  Day-of-month validation is
simplified to 1–31. -/
def parseDateChars : List Char → Option Nat
  | [y1, y2, y3, y4, c1, m1, m2, c2, d1, d2] =>
    if c1 = '-' ∧ c2 = '-' then
      match digitsVal [y1, y2, y3, y4, m1, m2, d1, d2] with
      | some [a, b, c, d, e, f, g, h] =>
        let year := ((a * 10 + b) * 10 + c) * 10 + d
        let month := e * 10 + f
        let day := g * 10 + h
        if 1 ≤ month ∧ month ≤ 12 ∧ 1 ≤ day ∧ day ≤ 31 then
          some (encodeInstant year month day 0 0 0)
        else
          none
      | _ => none
    else
      none
  | _ => none

/-- Parse the 19-character layout `2006-01-02T15:04:05` (Go `time.Parse`
with that layout, the format crt.sh uses for `not_before`/`not_after`). -/
def parseDateTimeChars : List Char → Option Nat
  | [y1, y2, y3, y4, c1, m1, m2, c2, d1, d2, c3, h1, h2, c4, i1, i2, c5, s1, s2] =>
    if c1 = '-' ∧ c2 = '-' ∧ c3 = 'T' ∧ c4 = ':' ∧ c5 = ':' then
      match digitsVal [y1, y2, y3, y4, m1, m2, d1, d2, h1, h2, i1, i2, s1, s2] with
      | some [a, b, c, d, e, f, g, h, p, q, r, t, u, v] =>
        let year := ((a * 10 + b) * 10 + c) * 10 + d
        let month := e * 10 + f
        let day := g * 10 + h
        let hour := p * 10 + q
        let minute := r * 10 + t
        let second := u * 10 + v
        if 1 ≤ month ∧ month ≤ 12 ∧ 1 ≤ day ∧ day ≤ 31 ∧
           hour ≤ 23 ∧ minute ≤ 59 ∧ second ≤ 59 then
          some (encodeInstant year month day hour minute second)
        else
          none
      | _ => none
    else
      none
  | _ => none

/-- Go `time.Parse("2006-01-02", s)`: `none` models a parse error. -/
def goParseDate (s : String) : Option Nat :=
  parseDateChars s.data

/-- Go `time.Parse("2006-01-02T15:04:05", s)`. -/
def goParseDateTime (s : String) : Option Nat :=
  parseDateTimeChars s.data

/-- The JavaScript `new Date(s)` for the ISO-like strings this code
receives, assuming a UTC runtime (Cloudflare Workers): a date-time string
or a bare date string yields a valid instant, anything else is
`Invalid Date`, modelled as `none`. -/
def jsDate (s : String) : Option Nat :=
  match parseDateTimeChars s.data with
  | some v => some v
  | none => parseDateChars s.data

/-- The JavaScript comparison `a >= b` on two `Date` values: `false`
whenever either side is `Invalid Date` (`NaN`). -/
def jsGE : Option Nat → Option Nat → Bool
  | some a, some b => decide (b ≤ a)
  | _, _ => false

/-! ### Data model

`Certificate` models the crt.sh record (`Certificate` struct in
`certificates.go`, `Certificate` interface in `certificates.ts`).  Field
names follow the TypeScript/JSON form; the Go struct fields `ID`,
`IssuerName`, `NotBefore`, … carry the same data.  Go's `EntryType`
defaults to the empty string where TypeScript's `entry_type` is absent;
both are modelled by `Option String`. -/

structure Certificate where
  id : Int
  issuer_ca_id : Int
  issuer_name : String
  common_name : String
  name_value : String
  not_before : String
  not_after : String
  serial_number : String
  entry_timestamp : String
  entry_type : Option String
deriving DecidableEq, Repr

/-- `CertificateGroup` (same shape in both implementations):
certificates sharing one serial number.  `notAfterTime` is the parsed
validity-end instant used for sorting. -/
structure CertificateGroup where
  serialNumber : String
  commonName : String
  issuerName : String
  notBefore : String
  notAfter : String
  notAfterTime : Nat
  entries : List Certificate
deriving DecidableEq, Repr

/-- `IssuerGroup` (same shape in both implementations). -/
structure IssuerGroup where
  issuerName : String
  displayName : String
  certificates : List CertificateGroup
deriving DecidableEq, Repr

/-! ### Date Filter -/

/-- Go `FilterByNotBefore` (`certificates.go`): parse the cutoff with
layout `2006-01-02`; on failure return all certificates.  Otherwise keep
each certificate whose `NotBefore` fails to parse (include it anyway) or
parses to an instant not before the cutoff (`!certDate.Before(filterDate)`). -/
def FilterByNotBefore (certs : List Certificate) (notBeforeDate : String) :
    List Certificate :=
  match goParseDate notBeforeDate with
  | none => certs
  | some filterDate =>
    certs.filter fun cert =>
      match goParseDateTime cert.not_before with
      | none => true
      | some certDate => decide (filterDate ≤ certDate)

/-- TypeScript `filterByNotBefore` (`certificates.ts`): build
`new Date(notBeforeDate)` and keep the certificates with
`new Date(cert.not_before) >= filterDate`; the comparison is `false`
whenever either `Date` is invalid. -/
def filterByNotBefore (certs : List Certificate) (notBeforeDate : String) :
    List Certificate :=
  let filterDate := jsDate notBeforeDate
  certs.filter fun cert => jsGE (jsDate cert.not_before) filterDate

/-! ### Entry Labeler -/

/-- The comparison both sorts use: ascending by the `id` field
(TS `(a, b) => a.id - b.id`, Go `Entries[i].ID < Entries[j].ID`). -/
def idLe (a b : Certificate) : Prop := a.id ≤ b.id

instance : DecidableRel idLe := fun a b => Int.decLe a.id b.id

instance : IsTotal Certificate idLe := ⟨fun a b => Int.le_total a.id b.id⟩

instance : IsTrans Certificate idLe :=
  ⟨fun _ _ _ h1 h2 => Int.le_trans h1 h2⟩

/-- Tag the first element `Precertificate` and every other element
`Leaf Certificate` (the `forEach`/`for i := range` loop over the sorted
entries in both implementations). -/
def applyEntryLabels : List Certificate → List Certificate
  | [] => []
  | h :: t =>
    { h with entry_type := some "Precertificate" } ::
      t.map fun c => { c with entry_type := some "Leaf Certificate" }

/-- `labelEntries` (both implementations): a single entry is labeled
`Leaf Certificate`; otherwise the entries are sorted by `id` ascending
and the first is labeled `Precertificate`, the rest `Leaf Certificate`. -/
def labelEntries (entries : List Certificate) : List Certificate :=
  match entries with
  | [c] => [{ c with entry_type := some "Leaf Certificate" }]
  | _ => applyEntryLabels (entries.insertionSort idLe)

/-! ### Issuer Name Extractor -/

/-- `trimmed.startsWith('O=')` together with `trimmed.substring(2)`
(Go: `strings.HasPrefix(part, "O=")` / `strings.TrimPrefix`): the value
following `O=` in the trimmed component, `none` when the component does
not start with `O=`. -/
def orgMatch (component : List Char) : Option (List Char) :=
  match trimChars component with
  | c1 :: c2 :: v => if c1 = 'O' ∧ c2 = '=' then some v else none
  | _ => none

/-- Likewise for `CN=`. -/
def cnMatch (component : List Char) : Option (List Char) :=
  match trimChars component with
  | c1 :: c2 :: c3 :: v => if c1 = 'C' ∧ c2 = 'N' ∧ c3 = '=' then some v else none
  | _ => none

/-- The loop body of `extractIssuerDisplayName`: trim the component; if
it starts with `O=` overwrite the organization with the rest, else if it
starts with `CN=` overwrite the common name with the rest (a component
starting with `O=` cannot start with `CN=`, so testing the two
independently is the source's `else if`). -/
def updateOrgCN (oc : String × String) (component : List Char) :
    String × String :=
  match orgMatch component, cnMatch component with
  | some v, _ => (String.mk v, oc.2)
  | none, some v => (oc.1, String.mk v)
  | none, none => oc

/-- The `(org, cn)` pair after the extraction loop of
`extractIssuerDisplayName` has run over all components. -/
def extractOrgCN (issuerName : String) : String × String :=
  (dnParts issuerName).foldl updateOrgCN ("", "")

/-- `extractIssuerDisplayName` (both implementations): derive a display
name from a string-encoded distinguished name; `"{org} ({cn})"` when both
extracted values are nonempty, the nonempty one alone when only one is,
the original string when neither is. -/
def extractIssuerDisplayName (issuerName : String) : String :=
  let oc := extractOrgCN issuerName
  let org := oc.1
  let cn := oc.2
  if org ≠ "" ∧ cn ≠ "" then org ++ " (" ++ cn ++ ")"
  else if org ≠ "" then org
  else if cn ≠ "" then cn
  else issuerName

/-! ### Issuer Aggregator

Both implementations accumulate `CertificateGroup`s into a map keyed by
the full `issuerName`, appending to the per-key list.  The map is
modelled as an association list in first-insertion order, which is
exactly the iteration order of a JavaScript `Map`; the Go `map` has
unspecified iteration order, so the Go aggregator additionally takes the
key iteration order as a parameter. -/

/-- Add one `CertificateGroup` to the issuer map: append to the entry
with its issuer key if present, else append a new singleton entry. -/
def addToIssuerMap (m : List (String × List CertificateGroup))
    (g : CertificateGroup) : List (String × List CertificateGroup) :=
  match m with
  | [] => [(g.issuerName, [g])]
  | (k, gs) :: rest =>
    if k = g.issuerName then (k, gs ++ [g]) :: rest
    else (k, gs) :: addToIssuerMap rest g

/-- The issuer map after the grouping pass of `groupByIssuer` /
`GroupByIssuer`. -/
def buildIssuerAssoc (groups : List CertificateGroup) :
    List (String × List CertificateGroup) :=
  groups.foldl addToIssuerMap []

/-- Association-list lookup (the Go `issuerMap[key]` access). -/
def lookupAssoc {α : Type} : List (String × α) → String → Option α
  | [], _ => none
  | (k, v) :: rest, key => if k = key then some v else lookupAssoc rest key

/-- Descending order on the parsed validity-end instant: the `Less`
function `NotAfterTime.After` in Go, the comparator
`b.notAfterTime.getTime() - a.notAfterTime.getTime()` in TypeScript. -/
def certGe (a b : CertificateGroup) : Prop :=
  b.notAfterTime ≤ a.notAfterTime

instance : DecidableRel certGe := fun a b => Nat.decLe b.notAfterTime a.notAfterTime

instance : IsTotal CertificateGroup certGe :=
  ⟨fun a b => (Nat.le_total a.notAfterTime b.notAfterTime).symm⟩

instance : IsTrans CertificateGroup certGe :=
  ⟨fun _ _ _ h1 h2 => Nat.le_trans h2 h1⟩

/-- Lexicographic comparison of character lists by code point: the model
of Go's byte-wise `<` on strings and of TypeScript's `localeCompare`
ordering (on the ASCII issuer names this code handles the two agree). -/
def strLeb : List Char → List Char → Bool
  | [], _ => true
  | _ :: _, [] => false
  | a :: as, b :: bs =>
    if a.toNat < b.toNat then true
    else if b.toNat < a.toNat then false
    else strLeb as bs

/-- `strLeb` is total. -/
theorem strLeb_total : ∀ a b : List Char, strLeb a b = true ∨ strLeb b a = true := by
  intro a
  induction a with
  | nil => intro b; exact Or.inl rfl
  | cons x as ih =>
    intro b
    cases b with
    | nil => exact Or.inr rfl
    | cons y bs =>
      simp only [strLeb]
      rcases ih bs with h | h <;>
        split_ifs <;> simp_all

/-- `strLeb` is transitive. -/
theorem strLeb_trans :
    ∀ a b c : List Char, strLeb a b = true → strLeb b c = true →
      strLeb a c = true := by
  intro a
  induction a with
  | nil => intro b c h1 h2; rfl
  | cons x as ih =>
    intro b c h1 h2
    cases b with
    | nil => exact absurd h1 (by simp [strLeb])
    | cons y bs =>
      cases c with
      | nil => exact absurd h2 (by simp [strLeb])
      | cons z cs =>
        simp only [strLeb] at h1 h2 ⊢
        split_ifs at h1 h2 ⊢ <;>
          first
            | rfl
            | exact h1
            | exact h2
            | exact ih bs cs h1 h2
            | exfalso; omega

/-- `strLeb` is antisymmetric. -/
theorem strLeb_antisymm :
    ∀ a b : List Char, strLeb a b = true → strLeb b a = true → a = b := by
  intro a
  induction a with
  | nil =>
    intro b h1 h2
    cases b with
    | nil => rfl
    | cons y bs => exact absurd h2 (by simp [strLeb])
  | cons x as ih =>
    intro b h1 h2
    cases b with
    | nil => exact absurd h1 (by simp [strLeb])
    | cons y bs =>
      simp only [strLeb] at h1 h2
      split_ifs at h1 h2 <;> try (exfalso; omega)
      have hxy : x = y := by
        have hn : x.toNat = y.toNat := by omega
        exact Char.eq_of_val_eq (UInt32.toNat.inj hn)
      rw [hxy, ih bs h1 h2]

/-- The string order used for the display-name sort. -/
def strLe (a b : String) : Prop := strLeb a.data b.data = true

/-- Antisymmetry of the string order. -/
theorem strLe_antisymm {a b : String} (h1 : strLe a b) (h2 : strLe b a) :
    a = b := by
  obtain ⟨la⟩ := a
  obtain ⟨lb⟩ := b
  exact congrArg String.mk (strLeb_antisymm la lb h1 h2)

/-- Ascending order on display names: Go's `<` on strings, TypeScript's
`localeCompare`. -/
def dnLe (a b : IssuerGroup) : Prop := strLe a.displayName b.displayName

instance : DecidableRel dnLe := fun _ _ =>
  inferInstanceAs (Decidable (_ = true))

instance : IsTotal IssuerGroup dnLe :=
  ⟨fun a b => strLeb_total a.displayName.data b.displayName.data⟩

instance : IsTrans IssuerGroup dnLe :=
  ⟨fun _ _ _ h1 h2 => strLeb_trans _ _ _ h1 h2⟩

/-- Build the `IssuerGroup` emitted for one issuer key: display name
derived from the key (the key is the `issuerName` of every group filed
under it, in particular of the first one, from which the source computes
`DisplayName`), certificates sorted by validity-end descending. -/
def mkIssuerGroup (k : String) (gs : List CertificateGroup) : IssuerGroup :=
  { issuerName := k
    displayName := extractIssuerDisplayName k
    certificates := gs.insertionSort certGe }

/-- TypeScript `groupByIssuer` (`certificates.ts`): group by issuer into
a `Map` (iterated in insertion order), sort each group's certificates by
validity-end descending, then sort the issuer groups by display name. -/
def groupByIssuer (groups : List CertificateGroup) : List IssuerGroup :=
  ((buildIssuerAssoc groups).map fun p => mkIssuerGroup p.1 p.2).insertionSort dnLe

/-- Go `GroupByIssuer` (`certificates.go`): the same computation, except
that the issuer map is a Go `map` iterated in the unspecified order
`order` (a permutation of the keys). -/
def GroupByIssuer (order : List String) (groups : List CertificateGroup) :
    List IssuerGroup :=
  (order.filterMap fun k =>
    (lookupAssoc (buildIssuerAssoc groups) k).map (mkIssuerGroup k)).insertionSort dnLe

/-! ### Concrete sample data used by witnesses and counterexamples -/

/-- A sample crt.sh record with the given validity-start string. -/
def sampleCert (nb : String) : Certificate :=
  { id := 1
    issuer_ca_id := 1
    issuer_name := "O=A"
    common_name := "example.com"
    name_value := "example.com"
    not_before := nb
    not_after := "2030-01-01T00:00:00"
    serial_number := "S"
    entry_timestamp := ""
    entry_type := none }

/-! ### Small lemmas about the filters -/

/-- `a >= b` on JavaScript dates is `false` when the right side is
invalid. -/
theorem jsGE_none_right (a : Option Nat) : jsGE a none = false := by
  cases a <;> rfl

/-- `a >= b` on JavaScript dates is `false` when the left side is
invalid. -/
theorem jsGE_none_left (b : Option Nat) : jsGE none b = false := by
  cases b <;> rfl

/-! ### Claim C1 — unparseable validity-start strings -/

/-- Claim C1, counterexample: the TypeScript `filterByNotBefore` drops a
record whose validity-start string cannot be parsed as a date, instead of
retaining it. -/
theorem claim1_ts_drops_unparseable :
    jsDate (sampleCert "garbage").not_before = none ∧
    filterByNotBefore [sampleCert "garbage"] "2024-01-01" = [] := by
  decide

/-- Claim C1 as amended: only the Go `FilterByNotBefore` retains a record
whose validity-start string cannot be parsed; the TypeScript
`filterByNotBefore` removes every such record, because its date
comparison against an invalid `Date` is always `false`. -/
theorem claim1_unparseable_record :
    (∀ (certs : List Certificate) (cutoff : String) (c : Certificate),
      goParseDateTime c.not_before = none →
      (c ∈ FilterByNotBefore certs cutoff ↔ c ∈ certs)) ∧
    (∀ (certs : List Certificate) (cutoff : String) (c : Certificate),
      jsDate c.not_before = none →
      c ∉ filterByNotBefore certs cutoff) := by
  constructor
  · intro certs cutoff c h
    unfold FilterByNotBefore
    cases hc : goParseDate cutoff with
    | none => exact Iff.rfl
    | some fd =>
      simp only [List.mem_filter, h]
      exact ⟨fun ⟨hm, _⟩ => hm, fun hm => ⟨hm, trivial⟩⟩
  · intro certs cutoff c h hmem
    unfold filterByNotBefore at hmem
    rw [List.mem_filter, h, jsGE_none_left] at hmem
    exact Bool.false_ne_true hmem.2

/-- Claim C1, witness for the amended theorem at a concrete input. -/
theorem claim1_unparseable_record_witness :
    (sampleCert "garbage" ∈
        FilterByNotBefore [sampleCert "garbage"] "2024-01-01" ↔
      sampleCert "garbage" ∈ [sampleCert "garbage"]) ∧
    sampleCert "garbage" ∉
      filterByNotBefore [sampleCert "garbage"] "2024-01-01" :=
  ⟨claim1_unparseable_record.1 _ _ _ (by decide),
   claim1_unparseable_record.2 _ _ _ (by decide)⟩

/-! ### Claim C4 — inclusive cutoff boundary -/

/-- Claim C4: in both implementations a record whose validity-start
instant parses is retained exactly when that instant is not strictly
before the cutoff instant — in particular a record equal to the cutoff is
retained and a record strictly before it is removed; concretely, a cutoff
of `2024-01-01` removes a record with validity-start 2023-12-31 and
retains one with validity-start `2024-01-01T00:00:00`. -/
theorem claim4_inclusive_boundary :
    (∀ (certs : List Certificate) (cutoff : String) (fd : Nat)
        (c : Certificate) (t : Nat),
      goParseDate cutoff = some fd →
      goParseDateTime c.not_before = some t →
      (c ∈ FilterByNotBefore certs cutoff ↔ c ∈ certs ∧ fd ≤ t)) ∧
    (∀ (certs : List Certificate) (cutoff : String) (fd : Nat)
        (c : Certificate) (t : Nat),
      jsDate cutoff = some fd →
      jsDate c.not_before = some t →
      (c ∈ filterByNotBefore certs cutoff ↔ c ∈ certs ∧ fd ≤ t)) ∧
    FilterByNotBefore
        [sampleCert "2023-12-31T00:00:00", sampleCert "2024-01-01T00:00:00"]
        "2024-01-01" =
      [sampleCert "2024-01-01T00:00:00"] ∧
    filterByNotBefore
        [sampleCert "2023-12-31", sampleCert "2024-01-01T00:00:00"]
        "2024-01-01" =
      [sampleCert "2024-01-01T00:00:00"] := by
  refine ⟨?_, ?_, by decide, by decide⟩
  · intro certs cutoff fd c t hcut hc
    unfold FilterByNotBefore
    rw [hcut]
    simp only [List.mem_filter, hc, decide_eq_true_iff]
  · intro certs cutoff fd c t hcut hc
    unfold filterByNotBefore
    rw [List.mem_filter, hcut, hc]
    simp only [jsGE, decide_eq_true_iff]

/-- Claim C4, witness: the general boundary characterization applied at
a concrete record equal to the cutoff instant. -/
theorem claim4_inclusive_boundary_witness :
    sampleCert "2024-01-01T00:00:00" ∈
        FilterByNotBefore [sampleCert "2024-01-01T00:00:00"] "2024-01-01" ↔
      sampleCert "2024-01-01T00:00:00" ∈ [sampleCert "2024-01-01T00:00:00"] ∧
        encodeInstant 2024 1 1 0 0 0 ≤ encodeInstant 2024 1 1 0 0 0 :=
  claim4_inclusive_boundary.1 _ _ _ _ _ (by decide) (by decide)

/-! ### Claim C10 — unparseable cutoff string -/

/-- Claim C10: when the cutoff does not parse in the `2006-01-02` layout
the Go `FilterByNotBefore` returns the input list unchanged, while the
TypeScript `filterByNotBefore` given a cutoff that is an invalid `Date`
removes every record (every date comparison against the invalid cutoff
fails). -/
theorem claim10_invalid_cutoff :
    (∀ (certs : List Certificate) (cutoff : String),
      goParseDate cutoff = none → FilterByNotBefore certs cutoff = certs) ∧
    (∀ (certs : List Certificate) (cutoff : String),
      jsDate cutoff = none → filterByNotBefore certs cutoff = []) := by
  constructor
  · intro certs cutoff h
    unfold FilterByNotBefore
    rw [h]
  · intro certs cutoff h
    unfold filterByNotBefore
    rw [h]
    exact List.filter_eq_nil_iff.mpr fun c _ => by
      rw [jsGE_none_right]
      exact Bool.false_ne_true

/-- Claim C10, witness at a concrete unparseable cutoff. -/
theorem claim10_invalid_cutoff_witness :
    FilterByNotBefore [sampleCert "2030-01-01T00:00:00"] "banana" =
      [sampleCert "2030-01-01T00:00:00"] ∧
    filterByNotBefore [sampleCert "2030-01-01T00:00:00"] "banana" = [] :=
  ⟨claim10_invalid_cutoff.1 _ _ (by decide),
   claim10_invalid_cutoff.2 _ _ (by decide)⟩

/-! ### Lemmas about the issuer-name extraction loop -/

/-- A trimmed component cannot start with both `O=` and `CN=`. -/
theorem orgMatch_cnMatch_disjoint (p : List Char) :
    orgMatch p = none ∨ cnMatch p = none := by
  unfold orgMatch cnMatch
  rcases trimChars p with _ | ⟨c1, _ | ⟨c2, _ | ⟨c3, v⟩⟩⟩
  · exact Or.inl rfl
  · exact Or.inl rfl
  · exact Or.inr rfl
  · by_cases h : c1 = 'O' ∧ c2 = '='
    · right
      show (if c1 = 'C' ∧ c2 = 'N' ∧ c3 = '=' then some v else none) = none
      rw [if_neg]
      rintro ⟨rfl, -, -⟩
      exact absurd h.1 (by decide)
    · left
      show (if c1 = 'O' ∧ c2 = '=' then some (c3 :: v) else none) = none
      exact if_neg h

/-- The value of the last component matched by `f`, if any: the
specification-side description of what a loop that overwrites on every
match computes. -/
def lastMatchValue (f : List Char → Option (List Char)) :
    List (List Char) → Option (List Char)
  | [] => none
  | p :: rest =>
    match lastMatchValue f rest with
    | some v => some v
    | none => f p

/-- Unfolding equation for `lastMatchValue` on a cons cell. -/
theorem lastMatchValue_cons (f : List Char → Option (List Char))
    (p : List Char) (rest : List (List Char)) :
    lastMatchValue f (p :: rest) =
      match lastMatchValue f rest with
      | some v => some v
      | none => f p := rfl

/-- If no component matches `f`, there is no last matching value. -/
theorem lastMatchValue_eq_none {f : List Char → Option (List Char)}
    {parts : List (List Char)} (h : ∀ p ∈ parts, f p = none) :
    lastMatchValue f parts = none := by
  induction parts with
  | nil => rfl
  | cons p rest ih =>
    unfold lastMatchValue
    rw [ih fun q hq => h q (List.mem_cons_of_mem p hq), h p (List.mem_cons_self p rest)]

/-- What the extraction loop computes: the organization is the value of
the last component whose trimmed form starts with `O=` (the empty string
when there is none), and likewise the common name for `CN=`. -/
theorem foldl_updateOrgCN (parts : List (List Char)) :
    ∀ o0 c0 : String,
      parts.foldl updateOrgCN (o0, c0) =
        ((match lastMatchValue orgMatch parts with
          | some v => String.mk v
          | none => o0),
         (match lastMatchValue cnMatch parts with
          | some v => String.mk v
          | none => c0)) := by
  induction parts with
  | nil => intro o0 c0; rfl
  | cons p rest ih =>
    intro o0 c0
    rw [List.foldl_cons]
    rcases ho : orgMatch p with _ | v
    · rcases hc : cnMatch p with _ | v
      · have hupd : updateOrgCN (o0, c0) p = (o0, c0) := by
          unfold updateOrgCN; rw [ho, hc]
        rw [hupd, ih o0 c0, lastMatchValue_cons, lastMatchValue_cons, ho, hc]
        rcases lastMatchValue orgMatch rest with _ | w <;>
          rcases lastMatchValue cnMatch rest with _ | w' <;> rfl
      · have hupd : updateOrgCN (o0, c0) p = (o0, String.mk v) := by
          unfold updateOrgCN; rw [ho, hc]
        rw [hupd, ih o0 (String.mk v), lastMatchValue_cons, lastMatchValue_cons,
          ho, hc]
        rcases lastMatchValue orgMatch rest with _ | w <;>
          rcases lastMatchValue cnMatch rest with _ | w' <;> rfl
    · have hc : cnMatch p = none := by
        rcases orgMatch_cnMatch_disjoint p with h | h
        · rw [ho] at h; exact absurd h (by simp)
        · exact h
      have hupd : updateOrgCN (o0, c0) p = (String.mk v, c0) := by
        unfold updateOrgCN; rw [ho]
      rw [hupd, ih (String.mk v) c0, lastMatchValue_cons, lastMatchValue_cons,
        ho, hc]
      rcases lastMatchValue orgMatch rest with _ | w <;>
        rcases lastMatchValue cnMatch rest with _ | w' <;> rfl

/-! ### Claim C5 — issuer display-name extraction -/

/-- Claim C5: the extractor returns `"{org} ({cn})"` when both extracted
values are present (nonempty), the single value alone when only one is,
and the original string unchanged when no component carries an `O=` or
`CN=` value; in particular `"C=US, O=Let's Encrypt, CN=R3"` maps to
`"Let's Encrypt (R3)"` and `"O=Acme Corp"` maps to `"Acme Corp"`. -/
theorem claim5_display_name_cases :
    (∀ s org cn : String, extractOrgCN s = (org, cn) →
      (org ≠ "" → cn ≠ "" →
        extractIssuerDisplayName s = org ++ " (" ++ cn ++ ")") ∧
      (org ≠ "" → cn = "" → extractIssuerDisplayName s = org) ∧
      (org = "" → cn ≠ "" → extractIssuerDisplayName s = cn)) ∧
    (∀ s : String,
      (∀ p ∈ dnParts s, orgMatch p = none ∧ cnMatch p = none) →
      extractIssuerDisplayName s = s) ∧
    extractIssuerDisplayName "C=US, O=Let\x27s Encrypt, CN=R3" =
      "Let\x27s Encrypt (R3)" ∧
    extractIssuerDisplayName "O=Acme Corp" = "Acme Corp" := by
  refine ⟨?_, ?_, by decide, by decide⟩
  · intro s org cn h
    have hd : extractIssuerDisplayName s =
        if org ≠ "" ∧ cn ≠ "" then org ++ " (" ++ cn ++ ")"
        else if org ≠ "" then org
        else if cn ≠ "" then cn
        else s := by
      simp only [extractIssuerDisplayName, h]
    rw [hd]
    refine ⟨fun h1 h2 => ?_, fun h1 h2 => ?_, fun h1 h2 => ?_⟩
    · rw [if_pos ⟨h1, h2⟩]
    · rw [if_neg fun hh => hh.2 h2, if_pos h1]
    · rw [if_neg fun hh => hh.1 h1, if_neg fun hh => hh h1, if_pos h2]
  · intro s hnone
    have h0 : extractOrgCN s = ("", "") := by
      unfold extractOrgCN
      rw [foldl_updateOrgCN (dnParts s) "" "",
        lastMatchValue_eq_none fun p hp => (hnone p hp).1,
        lastMatchValue_eq_none fun p hp => (hnone p hp).2]
    simp [extractIssuerDisplayName, h0]

/-- Claim C5, witness: the two-component case applied at `"O=A, CN=B"`. -/
theorem claim5_display_name_cases_witness :
    extractIssuerDisplayName "O=A, CN=B" = "A" ++ " (" ++ "B" ++ ")" :=
  (claim5_display_name_cases.1 "O=A, CN=B" "A" "B" (by decide)).1
    (by decide) (by decide)

/-! ### Claim C8 — repeated `O=` / `CN=` components -/

/-- Claim C8, counterexample: with `O=` occurring twice the extractor
uses the value of the second (last) occurrence, not the first: the claim
would require `"A (C)"`, the code produces `"B (C)"`. -/
theorem claim8_counterexample :
    extractIssuerDisplayName "O=A, O=B, CN=C" = "B (C)" ∧
    ("B (C)" : String) ≠ "A (C)" := by
  decide

/-- Claim C8 as amended: when the `O=` (or `CN=`) component occurs more
than once, the extraction loop uses the value from the **last**
occurrence of that component (last-seen overwrites), the empty string
when there is none. -/
theorem claim8_last_occurrence (s : String) :
    (extractOrgCN s).1 = (match lastMatchValue orgMatch (dnParts s) with
      | some v => String.mk v
      | none => "") ∧
    (extractOrgCN s).2 = (match lastMatchValue cnMatch (dnParts s) with
      | some v => String.mk v
      | none => "") := by
  unfold extractOrgCN
  rw [foldl_updateOrgCN (dnParts s) "" ""]
  exact ⟨rfl, rfl⟩

/-! ### Claim C2 — entry labeling -/

/-- Forget the derived label, recovering the record as collected (the
labeling loops mutate the records in place). -/
def clearEntryLabel (c : Certificate) : Certificate :=
  { c with entry_type := none }

/-- Labeling does not change the `id` fields. -/
theorem ids_applyEntryLabels (l : List Certificate) :
    (applyEntryLabels l).map Certificate.id = l.map Certificate.id := by
  cases l with
  | nil => rfl
  | cons h t =>
    show _ :: (t.map _).map Certificate.id = _ :: t.map Certificate.id
    rw [List.map_map]
    rfl

/-- Labeling commutes with forgetting the label. -/
theorem clear_applyEntryLabels (l : List Certificate) :
    (applyEntryLabels l).map clearEntryLabel = l.map clearEntryLabel := by
  cases l with
  | nil => rfl
  | cons h t =>
    show _ :: (t.map _).map clearEntryLabel = _ :: t.map clearEntryLabel
    rw [List.map_map]
    rfl

/-- `idLe`-pairwiseness only depends on the `id` fields. -/
theorem pairwise_idLe_of_ids_eq {l1 l2 : List Certificate}
    (h : l1.map Certificate.id = l2.map Certificate.id)
    (hp : l1.Pairwise idLe) : l2.Pairwise idLe := by
  have h1 : (l1.map Certificate.id).Pairwise (· ≤ ·) :=
    List.pairwise_map.mpr hp
  rw [h] at h1
  exact List.Pairwise.of_map Certificate.id (fun a b hab => hab) h1

/-- Claim C2: a singleton group is labeled `Leaf Certificate`; a group of
two or more entries is emitted sorted ascending by `id`, with the first
member labeled `Precertificate` and every other member
`Leaf Certificate`, and (up to the label assignment) its members are
exactly the members collected. -/
theorem claim2_entry_labeling (es : List Certificate) :
    (∀ c, es = [c] →
      labelEntries es = [{ c with entry_type := some "Leaf Certificate" }]) ∧
    (2 ≤ es.length →
      ∃ h t, labelEntries es = h :: t ∧
        h.entry_type = some "Precertificate" ∧
        (∀ c ∈ t, c.entry_type = some "Leaf Certificate") ∧
        List.Pairwise idLe (labelEntries es) ∧
        List.Perm ((labelEntries es).map clearEntryLabel)
          (es.map clearEntryLabel)) := by
  constructor
  · rintro c rfl
    rfl
  · intro hlen
    have hne : labelEntries es = applyEntryLabels (es.insertionSort idLe) := by
      cases es with
      | nil => simp at hlen
      | cons a t =>
        cases t with
        | nil => simp at hlen
        | cons b t2 => rfl
    cases hs : es.insertionSort idLe with
    | nil =>
      exfalso
      have := (List.perm_insertionSort idLe es).length_eq
      rw [hs] at this
      simp at this
      omega
    | cons h0 t0 =>
      refine ⟨{ h0 with entry_type := some "Precertificate" },
        t0.map fun c => { c with entry_type := some "Leaf Certificate" },
        by rw [hne, hs]; rfl, rfl, ?_, ?_, ?_⟩
      · intro c hc
        rw [List.mem_map] at hc
        obtain ⟨x, -, rfl⟩ := hc
        rfl
      · rw [hne]
        refine pairwise_idLe_of_ids_eq
          (ids_applyEntryLabels (es.insertionSort idLe)).symm ?_
        exact List.sorted_insertionSort idLe es
      · rw [hne, clear_applyEntryLabels]
        exact (List.perm_insertionSort idLe es).map clearEntryLabel

/-- A sample record with a given sequence token (`id` field). -/
def sampleCertId (i : Int) : Certificate :=
  { sampleCert "2024-01-01T00:00:00" with id := i }

/-- Claim C2, witness: the labeling theorem applied to a singleton group
and to a two-member group with out-of-order sequence tokens. -/
theorem claim2_entry_labeling_witness :
    labelEntries [sampleCertId 7] =
      [{ sampleCertId 7 with entry_type := some "Leaf Certificate" }] ∧
    ∃ h t, labelEntries [sampleCertId 9, sampleCertId 5] = h :: t ∧
      h.entry_type = some "Precertificate" ∧
      (∀ c ∈ t, c.entry_type = some "Leaf Certificate") ∧
      List.Pairwise idLe (labelEntries [sampleCertId 9, sampleCertId 5]) ∧
      List.Perm
        ((labelEntries [sampleCertId 9, sampleCertId 5]).map clearEntryLabel)
        ([sampleCertId 9, sampleCertId 5].map clearEntryLabel) :=
  ⟨(claim2_entry_labeling [sampleCertId 7]).1 (sampleCertId 7) rfl,
   (claim2_entry_labeling [sampleCertId 9, sampleCertId 5]).2 (by decide)⟩

/-! ### Lemmas about the issuer aggregators -/

/-- A successful lookup comes from an entry of the association list. -/
theorem lookupAssoc_mem {α : Type} {m : List (String × α)} {k : String}
    {v : α} (h : lookupAssoc m k = some v) : (k, v) ∈ m := by
  induction m with
  | nil => exact absurd h (by simp [lookupAssoc])
  | cons p rest ih =>
    obtain ⟨k', v'⟩ := p
    unfold lookupAssoc at h
    by_cases hk : k' = k
    · rw [if_pos hk] at h
      injection h with hv
      subst hk
      subst hv
      exact List.mem_cons_self _ _
    · rw [if_neg hk] at h
      exact List.mem_cons_of_mem _ (ih h)

/-- On a list whose keys are pairwise distinct, lookup after a mismatched
head falls through to the tail. -/
theorem lookupAssoc_cons_ne {α : Type} (k' : String) (v' : α)
    (rest : List (String × α)) {k : String} (h : k' ≠ k) :
    lookupAssoc ((k', v') :: rest) k = lookupAssoc rest k := by
  show (if k' = k then some v' else lookupAssoc rest k) = lookupAssoc rest k
  rw [if_neg h]

/-- Every member of the TypeScript aggregator's output is built from one
entry of the issuer map. -/
theorem exists_entry_of_mem_groupByIssuer {groups : List CertificateGroup}
    {ig : IssuerGroup} (h : ig ∈ groupByIssuer groups) :
    ∃ p ∈ buildIssuerAssoc groups, ig = mkIssuerGroup p.1 p.2 := by
  unfold groupByIssuer at h
  rw [List.mem_insertionSort, List.mem_map] at h
  obtain ⟨p, hp, he⟩ := h
  exact ⟨p, hp, he.symm⟩

/-- Every member of the Go aggregator's output is built from one key of
the iteration order together with its issuer-map entry. -/
theorem exists_key_of_mem_GroupByIssuer {order : List String}
    {groups : List CertificateGroup} {ig : IssuerGroup}
    (h : ig ∈ GroupByIssuer order groups) :
    ∃ k gs, lookupAssoc (buildIssuerAssoc groups) k = some gs ∧
      ig = mkIssuerGroup k gs ∧ k ∈ order := by
  unfold GroupByIssuer at h
  rw [List.mem_insertionSort, List.mem_filterMap] at h
  obtain ⟨k, hk, hf⟩ := h
  cases hl : lookupAssoc (buildIssuerAssoc groups) k with
  | none => rw [hl] at hf; exact absurd hf (by simp)
  | some gs =>
    rw [hl] at hf
    simp only [Option.map_some'] at hf
    injection hf with hf
    exact ⟨k, gs, hl, hf.symm, hk⟩

/-! ### Claim C6 — descending validity-end inside each issuer group -/

/-- Claim C6: in both implementations, every issuer group the aggregator
produces lists its certificates in non-increasing order of the
validity-end instant (newest expiration first). -/
theorem claim6_sorted_by_not_after :
    (∀ (groups : List CertificateGroup) (ig : IssuerGroup),
      ig ∈ groupByIssuer groups →
      ig.certificates.Pairwise fun a b => b.notAfterTime ≤ a.notAfterTime) ∧
    (∀ (order : List String) (groups : List CertificateGroup)
        (ig : IssuerGroup),
      ig ∈ GroupByIssuer order groups →
      ig.certificates.Pairwise fun a b => b.notAfterTime ≤ a.notAfterTime) := by
  constructor
  · intro groups ig h
    obtain ⟨p, -, rfl⟩ := exists_entry_of_mem_groupByIssuer h
    exact List.sorted_insertionSort certGe p.2
  · intro order groups ig h
    obtain ⟨k, gs, -, rfl, -⟩ := exists_key_of_mem_GroupByIssuer h
    exact List.sorted_insertionSort certGe gs

/-- A sample certificate group under issuer `"O=X"` with the given
validity-end instant. -/
def sampleGroup (t : Nat) : CertificateGroup :=
  { serialNumber := "S"
    commonName := "example.com"
    issuerName := "O=X"
    notBefore := ""
    notAfter := ""
    notAfterTime := t
    entries := [] }

/-- The issuer group the aggregators produce for
`[sampleGroup 1, sampleGroup 5]`. -/
def sampleIssuerGroup : IssuerGroup :=
  { issuerName := "O=X"
    displayName := "X"
    certificates := [sampleGroup 5, sampleGroup 1] }

/-- Claim C6, witness: the certificates of the issuer group produced for
two groups with out-of-order validity-end instants are non-increasing. -/
theorem claim6_sorted_by_not_after_witness :
    sampleIssuerGroup.certificates.Pairwise
      fun a b => b.notAfterTime ≤ a.notAfterTime :=
  claim6_sorted_by_not_after.1 [sampleGroup 1, sampleGroup 5]
    sampleIssuerGroup (by decide)

/-! ### Claim C7 — aggregation neither creates, duplicates nor drops
groups -/

/-- All certificate groups stored in an issuer map, in map order. -/
def joinCertLists (m : List (String × List CertificateGroup)) :
    List CertificateGroup :=
  (m.map Prod.snd).flatten

/-- Adding one group to the issuer map adds exactly that group to the
stored contents. -/
theorem joinCertLists_addToIssuerMap (m : List (String × List CertificateGroup))
    (g : CertificateGroup) :
    List.Perm (joinCertLists (addToIssuerMap m g)) (joinCertLists m ++ [g]) := by
  induction m with
  | nil =>
    simp [joinCertLists, addToIssuerMap]
  | cons p rest ih =>
    obtain ⟨k, gs⟩ := p
    unfold addToIssuerMap
    by_cases hk : k = g.issuerName
    · rw [if_pos hk]
      show List.Perm ((gs ++ [g]) ++ joinCertLists rest)
        ((gs ++ joinCertLists rest) ++ [g])
      calc (gs ++ [g]) ++ joinCertLists rest
          = gs ++ ([g] ++ joinCertLists rest) := by rw [List.append_assoc]
        _ ~ gs ++ (joinCertLists rest ++ [g]) :=
            List.Perm.append_left gs (List.perm_append_comm)
        _ = (gs ++ joinCertLists rest) ++ [g] := by rw [List.append_assoc]
    · rw [if_neg hk]
      show List.Perm (gs ++ joinCertLists (addToIssuerMap rest g))
        ((gs ++ joinCertLists rest) ++ [g])
      calc gs ++ joinCertLists (addToIssuerMap rest g)
          ~ gs ++ (joinCertLists rest ++ [g]) := List.Perm.append_left gs ih
        _ = (gs ++ joinCertLists rest) ++ [g] := by rw [List.append_assoc]

/-- After the whole grouping pass, the issuer map stores exactly the
input groups (each once). -/
theorem joinCertLists_foldl (groups : List CertificateGroup) :
    ∀ m : List (String × List CertificateGroup),
      List.Perm (joinCertLists (groups.foldl addToIssuerMap m))
        (joinCertLists m ++ groups) := by
  induction groups with
  | nil => intro m; simp
  | cons g rest ih =>
    intro m
    rw [List.foldl_cons]
    calc joinCertLists (rest.foldl addToIssuerMap (addToIssuerMap m g))
        ~ joinCertLists (addToIssuerMap m g) ++ rest := ih (addToIssuerMap m g)
      _ ~ (joinCertLists m ++ [g]) ++ rest :=
          (joinCertLists_addToIssuerMap m g).append_right rest
      _ = joinCertLists m ++ (g :: rest) := by
          rw [List.append_assoc]; rfl

/-- The issuer map built from `groups` stores exactly `groups`. -/
theorem joinCertLists_buildIssuerAssoc (groups : List CertificateGroup) :
    List.Perm (joinCertLists (buildIssuerAssoc groups)) groups := by
  have := joinCertLists_foldl groups []
  simpa [joinCertLists] using this

/-- Sorting each stored list preserves the stored contents. -/
theorem flatten_map_insertionSort (m : List (String × List CertificateGroup)) :
    List.Perm ((m.map fun p => (p.2).insertionSort certGe).flatten)
      (joinCertLists m) := by
  induction m with
  | nil => exact List.Perm.refl _
  | cons p rest ih =>
    show List.Perm ((p.2).insertionSort certGe ++ _) (p.2 ++ _)
    exact (List.perm_insertionSort certGe p.2).append ih


/-- Keys of the issuer map after adding one group: unchanged when the
group's issuer is already present, otherwise its issuer is appended. -/
theorem keys_addToIssuerMap (m : List (String × List CertificateGroup))
    (g : CertificateGroup) :
    (addToIssuerMap m g).map Prod.fst =
      if g.issuerName ∈ m.map Prod.fst then m.map Prod.fst
      else m.map Prod.fst ++ [g.issuerName] := by
  induction m with
  | nil => simp [addToIssuerMap]
  | cons p rest ih =>
    obtain ⟨k, gs⟩ := p
    unfold addToIssuerMap
    by_cases hk : k = g.issuerName
    · rw [if_pos hk]
      subst hk
      simp
    · rw [if_neg hk]
      show k :: (addToIssuerMap rest g).map Prod.fst = _
      rw [ih]
      by_cases hmem : g.issuerName ∈ rest.map Prod.fst
      · rw [if_pos hmem, if_pos (by simp [hmem])]
        rfl
      · rw [if_neg hmem, if_neg ?_]
        · rfl
        · intro hh
          rcases List.mem_cons.mp hh with h1 | h2
          · exact hk h1.symm
          · exact hmem h2

/-- Adding a group preserves distinctness of the issuer-map keys. -/
theorem keys_nodup_addToIssuerMap {m : List (String × List CertificateGroup)}
    (g : CertificateGroup) (h : (m.map Prod.fst).Nodup) :
    ((addToIssuerMap m g).map Prod.fst).Nodup := by
  rw [keys_addToIssuerMap]
  by_cases hmem : g.issuerName ∈ m.map Prod.fst
  · rw [if_pos hmem]; exact h
  · rw [if_neg hmem]
    rw [List.nodup_append]
    refine ⟨h, List.nodup_singleton _, ?_⟩
    intro a ha hb
    rw [List.mem_singleton] at hb
    subst hb
    exact hmem ha

/-- The issuer map never stores the same issuer key twice (each Go map /
JavaScript `Map` key occurs once). -/
theorem buildIssuerAssoc_keys_nodup (groups : List CertificateGroup) :
    ((buildIssuerAssoc groups).map Prod.fst).Nodup := by
  suffices h : ∀ m : List (String × List CertificateGroup),
      (m.map Prod.fst).Nodup →
      ((groups.foldl addToIssuerMap m).map Prod.fst).Nodup by
    exact h [] (by simp)
  induction groups with
  | nil => intro m hm; exact hm
  | cons g rest ih =>
    intro m hm
    rw [List.foldl_cons]
    exact ih _ (keys_nodup_addToIssuerMap g hm)

/-- Iterating the distinct keys of the issuer map and looking each one up
reproduces the map's entries in iteration order. -/
theorem filterMap_lookup_keys (m : List (String × List CertificateGroup))
    (hnd : (m.map Prod.fst).Nodup) :
    (m.map Prod.fst).filterMap
        (fun k => (lookupAssoc m k).map (mkIssuerGroup k)) =
      m.map fun p => mkIssuerGroup p.1 p.2 := by
  induction m with
  | nil => rfl
  | cons p rest ih =>
    obtain ⟨k, gs⟩ := p
    have hk : k ∉ rest.map Prod.fst := (List.nodup_cons.mp hnd).1
    have hrest : (rest.map Prod.fst).Nodup := (List.nodup_cons.mp hnd).2
    show List.filterMap _ (k :: rest.map Prod.fst) = _
    rw [List.filterMap_cons]
    have hfk : (lookupAssoc ((k, gs) :: rest) k).map (mkIssuerGroup k) =
        some (mkIssuerGroup k gs) := by
      show ((if k = k then some gs else lookupAssoc rest k).map _) = _
      rw [if_pos rfl]
      rfl
    rw [hfk]
    have hcong : ∀ k' ∈ rest.map Prod.fst,
        (lookupAssoc ((k, gs) :: rest) k').map (mkIssuerGroup k') =
          (lookupAssoc rest k').map (mkIssuerGroup k') := by
      intro k' hk'
      rw [lookupAssoc_cons_ne k gs rest fun he => hk (he ▸ hk')]
    rw [List.filterMap_congr hcong, ih hrest]
    rfl

/-- Claim C7: for both aggregators, the concatenation of the certificate
lists of all produced issuer groups is a permutation of the input
collection of certificate groups — aggregation neither creates,
duplicates, nor drops any group.  (For the Go version, under any
iteration order of the issuer-map keys.) -/
theorem claim7_no_loss_no_duplication :
    (∀ groups : List CertificateGroup,
      List.Perm (((groupByIssuer groups).map IssuerGroup.certificates).flatten)
        groups) ∧
    (∀ (order : List String) (groups : List CertificateGroup),
      List.Perm order ((buildIssuerAssoc groups).map Prod.fst) →
      List.Perm
        (((GroupByIssuer order groups).map IssuerGroup.certificates).flatten)
        groups) := by
  constructor
  · intro groups
    unfold groupByIssuer
    calc ((((buildIssuerAssoc groups).map fun p =>
            mkIssuerGroup p.1 p.2).insertionSort dnLe).map
              IssuerGroup.certificates).flatten
        ~ (((buildIssuerAssoc groups).map fun p =>
            mkIssuerGroup p.1 p.2).map IssuerGroup.certificates).flatten :=
          ((List.perm_insertionSort dnLe _).map IssuerGroup.certificates).flatten
      _ = ((buildIssuerAssoc groups).map fun p =>
            (p.2).insertionSort certGe).flatten := by
          rw [List.map_map]; rfl
      _ ~ joinCertLists (buildIssuerAssoc groups) :=
          flatten_map_insertionSort (buildIssuerAssoc groups)
      _ ~ groups := joinCertLists_buildIssuerAssoc groups
  · intro order groups hord
    have hnd := buildIssuerAssoc_keys_nodup groups
    unfold GroupByIssuer
    calc (((order.filterMap fun k =>
            (lookupAssoc (buildIssuerAssoc groups) k).map
              (mkIssuerGroup k)).insertionSort dnLe).map
                IssuerGroup.certificates).flatten
        ~ ((order.filterMap fun k =>
            (lookupAssoc (buildIssuerAssoc groups) k).map
              (mkIssuerGroup k)).map IssuerGroup.certificates).flatten :=
          ((List.perm_insertionSort dnLe _).map IssuerGroup.certificates).flatten
      _ ~ ((((buildIssuerAssoc groups).map Prod.fst).filterMap fun k =>
            (lookupAssoc (buildIssuerAssoc groups) k).map
              (mkIssuerGroup k)).map IssuerGroup.certificates).flatten :=
          ((hord.filterMap _).map IssuerGroup.certificates).flatten
      _ = (((buildIssuerAssoc groups).map fun p =>
            mkIssuerGroup p.1 p.2).map IssuerGroup.certificates).flatten := by
          rw [filterMap_lookup_keys (buildIssuerAssoc groups) hnd]
      _ = ((buildIssuerAssoc groups).map fun p =>
            (p.2).insertionSort certGe).flatten := by
          rw [List.map_map]; rfl
      _ ~ joinCertLists (buildIssuerAssoc groups) :=
          flatten_map_insertionSort (buildIssuerAssoc groups)
      _ ~ groups := joinCertLists_buildIssuerAssoc groups

/-- Claim C7, witness: the Go aggregator applied under the singleton key
iteration order neither creates nor drops groups. -/
theorem claim7_no_loss_no_duplication_witness :
    List.Perm
      (((GroupByIssuer ["O=X"] [sampleGroup 1, sampleGroup 5]).map
        IssuerGroup.certificates).flatten)
      [sampleGroup 1, sampleGroup 5] :=
  claim7_no_loss_no_duplication.2 ["O=X"] [sampleGroup 1, sampleGroup 5]
    (by decide)

/-! ### Claim C3 — determinism of the issuer aggregation -/

/-- Two certificate groups whose distinct issuer identities collide on
the display name `"X"`. -/
def collidingGroups : List CertificateGroup :=
  [{ sampleGroup 0 with issuerName := "C=US, O=X" },
   { sampleGroup 0 with issuerName := "C=GB, O=X" }]

/-- Claim C3, counterexample: both key orders are valid iteration orders
of the Go issuer map built from `collidingGroups`, yet the Go
`GroupByIssuer` returns differently ordered outputs for them — the
display-name sort cannot separate two distinct issuers with the same
display name, so the hashmap iteration order leaks into the output. -/
theorem claim3_counterexample :
    List.Perm ["C=US, O=X", "C=GB, O=X"]
      ((buildIssuerAssoc collidingGroups).map Prod.fst) ∧
    List.Perm ["C=GB, O=X", "C=US, O=X"]
      ((buildIssuerAssoc collidingGroups).map Prod.fst) ∧
    GroupByIssuer ["C=US, O=X", "C=GB, O=X"] collidingGroups ≠
      GroupByIssuer ["C=GB, O=X", "C=US, O=X"] collidingGroups := by
  refine ⟨by decide, by decide, by decide⟩

/-- Claim C3 as amended: the TypeScript `groupByIssuer` is a pure
function of its input (JavaScript `Map` iteration is insertion order),
and the Go `GroupByIssuer` yields the same output for every iteration
order of the issuer-map keys **provided** distinct issuer identities in
the input have distinct display names. -/
theorem claim3_determinism :
    (∀ groups : List CertificateGroup,
      groupByIssuer groups = groupByIssuer groups) ∧
    (∀ (o1 o2 : List String) (groups : List CertificateGroup),
      List.Perm o1 ((buildIssuerAssoc groups).map Prod.fst) →
      List.Perm o2 ((buildIssuerAssoc groups).map Prod.fst) →
      (∀ k1 ∈ (buildIssuerAssoc groups).map Prod.fst,
        ∀ k2 ∈ (buildIssuerAssoc groups).map Prod.fst,
          extractIssuerDisplayName k1 = extractIssuerDisplayName k2 →
            k1 = k2) →
      GroupByIssuer o1 groups = GroupByIssuer o2 groups) := by
  refine ⟨fun groups => rfl, ?_⟩
  intro o1 o2 groups h1 h2 hinj
  refine @List.Perm.eq_of_sorted IssuerGroup dnLe _ _ ?_ ?_ ?_ ?_
  · intro a b ha hb hab hba
    obtain ⟨k1, gs1, hlk1, rfl, -⟩ := exists_key_of_mem_GroupByIssuer ha
    obtain ⟨k2, gs2, hlk2, rfl, -⟩ := exists_key_of_mem_GroupByIssuer hb
    have hmem1 : k1 ∈ (buildIssuerAssoc groups).map Prod.fst :=
      List.mem_map.mpr ⟨(k1, gs1), lookupAssoc_mem hlk1, rfl⟩
    have hmem2 : k2 ∈ (buildIssuerAssoc groups).map Prod.fst :=
      List.mem_map.mpr ⟨(k2, gs2), lookupAssoc_mem hlk2, rfl⟩
    have hd1 : strLe (extractIssuerDisplayName k1) (extractIssuerDisplayName k2) := hab
    have hd2 : strLe (extractIssuerDisplayName k2) (extractIssuerDisplayName k1) := hba
    have hkeq : k1 = k2 := hinj k1 hmem1 k2 hmem2 (strLe_antisymm hd1 hd2)
    subst hkeq
    rw [hlk1] at hlk2
    injection hlk2 with hgs
    rw [hgs]
  · exact List.sorted_insertionSort dnLe _
  · exact List.sorted_insertionSort dnLe _
  · exact (List.perm_insertionSort dnLe _).trans
      (((h1.trans h2.symm).filterMap _).trans
        (List.perm_insertionSort dnLe _).symm)

/-- Two certificate groups with distinct issuer display names. -/
def distinctGroups : List CertificateGroup :=
  [{ sampleGroup 0 with issuerName := "O=A" },
   { sampleGroup 0 with issuerName := "O=B" }]

/-- Claim C3, witness for the amended theorem: on input with distinct
display names the two iteration orders give the same output. -/
theorem claim3_determinism_witness :
    GroupByIssuer ["O=A", "O=B"] distinctGroups =
      GroupByIssuer ["O=B", "O=A"] distinctGroups :=
  claim3_determinism.2 ["O=A", "O=B"] ["O=B", "O=A"] distinctGroups
    (by decide) (by decide) (by decide)

/-! ### CTSentry variant (`processCTSentryResponse` in the unnamed
worker file)

Only the fields that `processCTSentryResponse` and its helper
`extractCTSentryIssuerDisplayName` read are modelled; the remaining
fields of the API records (meta, ct, public key, usage, …) are never
touched by the verified code paths. -/

/-- JavaScript `a || b` for an optional string: the default replaces an
absent or empty (falsy) value. -/
def jsOrStr (o : Option String) (dflt : String) : String :=
  match o with
  | some s => if s = "" then dflt else s
  | none => dflt

/-- `CTSentryDistinguishedName` (fields used: `dn`, `common_name`,
`organization`). -/
structure CTSentryDistinguishedName where
  dn : Option String
  common_name : Option String
  organization : Option (List String)
deriving DecidableEq, Repr

/-- `CTSentryNames` (field used: `dns_names`). -/
structure CTSentryNames where
  dns_names : Option (List String)
deriving DecidableEq, Repr

/-- `CTSentryValidity`. -/
structure CTSentryValidity where
  not_before : Option String
  not_after : Option String
deriving DecidableEq, Repr

/-- `CTSentryCertDetails` (fields used: `subject`, `issuer`, `names`,
`validity`). -/
structure CTSentryCertDetails where
  subject : CTSentryDistinguishedName
  issuer : CTSentryDistinguishedName
  names : CTSentryNames
  validity : CTSentryValidity
deriving DecidableEq, Repr

/-- `CTSentryCertRecord`: one CT log entry; `cert` may be missing. -/
structure CTSentryCertRecord where
  cert : Option CTSentryCertDetails
deriving DecidableEq, Repr

/-- `CTSentryCertGroup` as built by `processCTSentryResponse`.
`notAfterDate` is the JavaScript `Date` (`none` = `Invalid Date`). -/
structure CTSentryCertGroup where
  qid : String
  primaryCert : CTSentryCertRecord
  allEntries : List CTSentryCertRecord
  issuerDisplayName : String
  commonName : String
  dnsNames : List String
  notBefore : String
  notAfter : String
  notAfterDate : Option Nat
deriving DecidableEq, Repr

/-- `CTSentryIssuerGroup`. -/
structure CTSentryIssuerGroup where
  issuerDN : String
  displayName : String
  certificates : List CTSentryCertGroup
deriving DecidableEq, Repr

/-- `CTSentryResponse`; `results` models the JSON object as its entry
list in insertion order (JavaScript object keys are unique). -/
structure CTSentryResponse where
  query : String
  truncated : Bool
  total : Int
  total_certs : Int
  results : List (String × List CTSentryCertRecord)
deriving DecidableEq, Repr

/-- `extractCTSentryIssuerDisplayName`: first organization value (empty
when the list is absent or empty), common name, the usual three-way
formatting, falling back to the full DN and then to `"Unknown Issuer"`. -/
def extractCTSentryIssuerDisplayName (issuer : CTSentryDistinguishedName) :
    String :=
  let org := match issuer.organization with
    | some (o :: _) => o
    | _ => ""
  let cn := jsOrStr issuer.common_name ""
  if org ≠ "" ∧ cn ≠ "" then org ++ " (" ++ cn ++ ")"
  else if org ≠ "" then org
  else if cn ≠ "" then cn
  else jsOrStr issuer.dn "Unknown Issuer"

/-- `new Date(cert.validity.not_after || 0)`: the epoch instant (0) for
an absent or empty string, otherwise the parsed date (`none` =
`Invalid Date`). -/
def ctNotAfterDate (v : Option String) : Option Nat :=
  match v with
  | some s => if s = "" then some 0 else jsDate s
  | none => some 0

/-- Step 1 loop body of `processCTSentryResponse`: skip a QID group
whose first record (`entries[0]`) carries no cert details, otherwise
build the display-ready `CTSentryCertGroup` from that first record.
(On an empty entry list the JavaScript code would throw; the model skips
it — no verified claim concerns that case.) -/
def ctCertGroupOfEntry (qid : String) (entries : List CTSentryCertRecord) :
    Option CTSentryCertGroup :=
  match entries with
  | [] => none
  | primaryCert :: _ =>
    match primaryCert.cert with
    | none => none
    | some cert =>
      some { qid := qid
             primaryCert := primaryCert
             allEntries := entries
             issuerDisplayName := extractCTSentryIssuerDisplayName cert.issuer
             commonName := jsOrStr cert.subject.common_name
               (jsOrStr (cert.names.dns_names.bind List.head?) "Unknown")
             dnsNames := cert.names.dns_names.getD []
             notBefore := jsOrStr cert.validity.not_before ""
             notAfter := jsOrStr cert.validity.not_after ""
             notAfterDate := ctNotAfterDate cert.validity.not_after }

/-- Step 1 of `processCTSentryResponse`: convert each QID group. -/
def ctCertGroupsOfResponse (response : CTSentryResponse) :
    List CTSentryCertGroup :=
  response.results.filterMap fun qe => ctCertGroupOfEntry qe.1 qe.2

/-- The per-certificate sort of step 3, comparator
`b.notAfterDate.getTime() - a.notAfterDate.getTime()`; a `NaN`
comparator value is treated as 0 (equal) by the JavaScript sort. -/
def ctCertGeb (a b : CTSentryCertGroup) : Bool :=
  match a.notAfterDate, b.notAfterDate with
  | some x, some y => decide (y ≤ x)
  | _, _ => true

/-- The proposition form of `ctCertGeb`. -/
def ctCertGe (a b : CTSentryCertGroup) : Prop := ctCertGeb a b = true

instance : DecidableRel ctCertGe := fun _ _ =>
  inferInstanceAs (Decidable (_ = true))

/-- Ascending order on CTSentry display names (`localeCompare`). -/
def ctDnLe (a b : CTSentryIssuerGroup) : Prop :=
  strLe a.displayName b.displayName

instance : DecidableRel ctDnLe := fun _ _ =>
  inferInstanceAs (Decidable (_ = true))

/-- The issuer DN a cert group is filed under in step 2:
`certGroup.primaryCert.cert?.issuer.dn || 'Unknown'`. -/
def ctIssuerDNOf (cg : CTSentryCertGroup) : String :=
  jsOrStr (cg.primaryCert.cert.bind fun c => c.issuer.dn) "Unknown"

/-- Step 2 map update: append to the existing issuer group, or create a
new one whose display name comes from the first cert group filed under
this DN. -/
def addToCTIssuerMap (m : List (String × CTSentryIssuerGroup))
    (dn : String) (cg : CTSentryCertGroup) :
    List (String × CTSentryIssuerGroup) :=
  match m with
  | [] => [(dn, { issuerDN := dn, displayName := cg.issuerDisplayName,
                  certificates := [cg] })]
  | (k, ig) :: rest =>
    if k = dn then
      (k, { ig with certificates := ig.certificates ++ [cg] }) :: rest
    else
      (k, ig) :: addToCTIssuerMap rest dn cg

/-- `processCTSentryResponse`: step 1 (convert QID groups), step 2
(group by issuer DN), step 3 (sort certificates within each issuer by
expiration descending, sort issuers by display name). -/
def processCTSentryResponse (response : CTSentryResponse) :
    List CTSentryIssuerGroup :=
  let certGroups := ctCertGroupsOfResponse response
  let issuerAssoc :=
    certGroups.foldl (fun m cg => addToCTIssuerMap m (ctIssuerDNOf cg) cg) []
  (issuerAssoc.map fun p =>
    { p.2 with certificates := p.2.certificates.insertionSort ctCertGe
    }).insertionSort ctDnLe

/-! ### Claim C9 — a QID group whose first record lacks cert details is
omitted -/

/-- All cert groups stored across the CTSentry issuer map's values. -/
def ctStoredCerts (m : List (String × CTSentryIssuerGroup)) :
    List CTSentryCertGroup :=
  (m.map fun p => p.2.certificates).flatten

/-- Adding a cert group to the CTSentry issuer map stores that group and
nothing else new. -/
theorem mem_ctStoredCerts_add {m : List (String × CTSentryIssuerGroup)}
    {dn : String} {cg0 cg : CTSentryCertGroup}
    (h : cg ∈ ctStoredCerts (addToCTIssuerMap m dn cg0)) :
    cg ∈ ctStoredCerts m ∨ cg = cg0 := by
  induction m with
  | nil =>
    simp [addToCTIssuerMap, ctStoredCerts] at h
    exact Or.inr h
  | cons p rest ih =>
    obtain ⟨k, ig⟩ := p
    unfold addToCTIssuerMap at h
    by_cases hk : k = dn
    · rw [if_pos hk] at h
      have h' : cg ∈ (ig.certificates ++ [cg0]) ++ ctStoredCerts rest := h
      rcases List.mem_append.mp h' with h1 | h1
      · rcases List.mem_append.mp h1 with h2 | h2
        · exact Or.inl (List.mem_append.mpr (Or.inl h2))
        · exact Or.inr (List.mem_singleton.mp h2)
      · exact Or.inl (List.mem_append.mpr (Or.inr h1))
    · rw [if_neg hk] at h
      have h' : cg ∈ ig.certificates ++ ctStoredCerts (addToCTIssuerMap rest dn cg0) := h
      rcases List.mem_append.mp h' with h1 | h1
      · exact Or.inl (List.mem_append.mpr (Or.inl h1))
      · rcases ih h1 with h2 | h2
        · exact Or.inl (List.mem_append.mpr (Or.inr h2))
        · exact Or.inr h2

/-- Every cert group stored after the whole step-2 fold either was
already stored or is one of the folded inputs. -/
theorem mem_ctStoredCerts_foldl (l : List CTSentryCertGroup) :
    ∀ (m : List (String × CTSentryIssuerGroup)) (cg : CTSentryCertGroup),
      cg ∈ ctStoredCerts
        (l.foldl (fun m c => addToCTIssuerMap m (ctIssuerDNOf c) c) m) →
      cg ∈ ctStoredCerts m ∨ cg ∈ l := by
  induction l with
  | nil => intro m cg h; exact Or.inl h
  | cons c rest ih =>
    intro m cg h
    rw [List.foldl_cons] at h
    rcases ih _ cg h with h1 | h1
    · rcases mem_ctStoredCerts_add h1 with h2 | h2
      · exact Or.inl h2
      · exact Or.inr (h2 ▸ List.mem_cons_self c rest)
    · exact Or.inr (List.mem_cons_of_mem c h1)

/-- Every cert group in the output of `processCTSentryResponse` comes
from step 1. -/
theorem mem_step1_of_mem_processCTSentryResponse
    {response : CTSentryResponse} {ig : CTSentryIssuerGroup}
    {cg : CTSentryCertGroup} (hig : ig ∈ processCTSentryResponse response)
    (hcg : cg ∈ ig.certificates) :
    cg ∈ ctCertGroupsOfResponse response := by
  unfold processCTSentryResponse at hig
  rw [List.mem_insertionSort, List.mem_map] at hig
  obtain ⟨p, hp, rfl⟩ := hig
  rw [show ({ p.2 with
      certificates := p.2.certificates.insertionSort ctCertGe
    } : CTSentryIssuerGroup).certificates =
      p.2.certificates.insertionSort ctCertGe from rfl,
    List.mem_insertionSort] at hcg
  have hstored : cg ∈ ctStoredCerts
      ((ctCertGroupsOfResponse response).foldl
        (fun m c => addToCTIssuerMap m (ctIssuerDNOf c) c) []) := by
    unfold ctStoredCerts
    rw [List.mem_flatten]
    exact ⟨p.2.certificates, List.mem_map.mpr ⟨p, hp, rfl⟩, hcg⟩
  rcases mem_ctStoredCerts_foldl (ctCertGroupsOfResponse response) [] cg
      hstored with h | h
  · exact absurd h (by simp [ctStoredCerts])
  · exact h

/-- Every cert group of step 1 comes from a QID entry whose first record
carries cert details, and it carries that entry's QID. -/
theorem exists_source_of_mem_ctCertGroups {response : CTSentryResponse}
    {cg : CTSentryCertGroup} (h : cg ∈ ctCertGroupsOfResponse response) :
    ∃ q es pc cert, (q, es) ∈ response.results ∧ es.head? = some pc ∧
      pc.cert = some cert ∧ cg.qid = q := by
  unfold ctCertGroupsOfResponse at h
  rw [List.mem_filterMap] at h
  obtain ⟨⟨q, es⟩, hqe, hf⟩ := h
  dsimp only at hf
  cases es with
  | nil => exact absurd hf (by simp [ctCertGroupOfEntry])
  | cons pc tl =>
    unfold ctCertGroupOfEntry at hf
    dsimp only at hf
    cases hc : pc.cert with
    | none => rw [hc] at hf; exact absurd hf (by simp)
    | some cert =>
      rw [hc] at hf
      injection hf with hcg
      exact ⟨q, pc :: tl, pc, cert, hqe, rfl, hc, by rw [← hcg]⟩

/-- Distinct keys force a unique value per key in an association list. -/
theorem assoc_value_unique {α : Type} {l : List (String × α)}
    (h : (l.map Prod.fst).Nodup) {k : String} {a b : α}
    (ha : (k, a) ∈ l) (hb : (k, b) ∈ l) : a = b := by
  induction l with
  | nil => cases ha
  | cons p rest ih =>
    obtain ⟨k', v'⟩ := p
    have hknotin : k' ∉ rest.map Prod.fst := (List.nodup_cons.mp h).1
    rcases List.mem_cons.mp ha with h1 | h1 <;>
      rcases List.mem_cons.mp hb with h2 | h2
    · injection h1.trans h2.symm
    · injection h1 with hk1 hv1
      exact absurd (List.mem_map.mpr ⟨(k, b), h2, hk1⟩) hknotin
    · injection h2 with hk2 hv2
      exact absurd (List.mem_map.mpr ⟨(k, a), h1, hk2⟩) hknotin
    · exact ih (List.nodup_cons.mp h).2 h1 h2

/-- Claim C9: if the first record of a QID group carries no cert details,
`processCTSentryResponse` omits that whole QID group — no issuer group
of the output contains a cert group with that QID — even when later
records of the same QID group do carry cert details.  (The `Nodup`
hypothesis states that the JSON object keys of `results` are unique.) -/
theorem claim9_first_record_without_cert_skips_group
    (response : CTSentryResponse) (qid : String)
    (entries : List CTSentryCertRecord) (r : CTSentryCertRecord)
    (hnd : (response.results.map Prod.fst).Nodup)
    (hmem : (qid, entries) ∈ response.results)
    (hhead : entries.head? = some r) (hnone : r.cert = none) :
    ∀ ig ∈ processCTSentryResponse response,
      ∀ cg ∈ ig.certificates, cg.qid ≠ qid := by
  intro ig hig cg hcg hq
  have hstep1 := mem_step1_of_mem_processCTSentryResponse hig hcg
  obtain ⟨q, es, pc, cert, hqe, hh, hc, hqid⟩ :=
    exists_source_of_mem_ctCertGroups hstep1
  rw [hq] at hqid
  subst hqid
  have hes : es = entries := assoc_value_unique hnd hqe hmem
  subst hes
  rw [hhead] at hh
  injection hh with hpc
  subst hpc
  rw [hnone] at hc
  cases hc

/-- A CTSentry log record without cert details. -/
def sampleCTRecordNoCert : CTSentryCertRecord := { cert := none }

/-- Cert details for the sample records. -/
def sampleCTCertDetails : CTSentryCertDetails :=
  { subject := { dn := none, common_name := some "example.com",
                 organization := none }
    issuer := { dn := some "CN=R3", common_name := some "R3",
                organization := some ["LE"] }
    names := { dns_names := some ["example.com"] }
    validity := { not_before := some "2024-01-01T00:00:00",
                  not_after := some "2030-01-01T00:00:00" } }

/-- A CTSentry log record with cert details. -/
def sampleCTRecordWithCert : CTSentryCertRecord :=
  { cert := some sampleCTCertDetails }

/-- A CTSentry response whose first QID group starts with a record that
has no cert details even though its second record has them. -/
def sampleCTResponse : CTSentryResponse :=
  { query := "example.com"
    truncated := false
    total := 3
    total_certs := 2
    results := [("q1", [sampleCTRecordNoCert, sampleCTRecordWithCert]),
                ("q2", [sampleCTRecordWithCert])] }

/-- The cert group `processCTSentryResponse` builds for the QID group
`"q2"` of `sampleCTResponse`. -/
def sampleCTCertGroup : CTSentryCertGroup :=
  { qid := "q2"
    primaryCert := sampleCTRecordWithCert
    allEntries := [sampleCTRecordWithCert]
    issuerDisplayName := "LE (R3)"
    commonName := "example.com"
    dnsNames := ["example.com"]
    notBefore := "2024-01-01T00:00:00"
    notAfter := "2030-01-01T00:00:00"
    notAfterDate := some (encodeInstant 2030 1 1 0 0 0) }

/-- The single issuer group `processCTSentryResponse` produces for
`sampleCTResponse`. -/
def sampleCTIssuerGroup : CTSentryIssuerGroup :=
  { issuerDN := "CN=R3"
    displayName := "LE (R3)"
    certificates := [sampleCTCertGroup] }

/-- Claim C9, witness: on `sampleCTResponse` (whose `"q1"` group starts
with a record without cert details) the cert group surviving in the
output does not carry QID `"q1"`. -/
theorem claim9_first_record_without_cert_skips_group_witness :
    sampleCTCertGroup.qid ≠ "q1" :=
  claim9_first_record_without_cert_skips_group sampleCTResponse "q1"
    [sampleCTRecordNoCert, sampleCTRecordWithCert] sampleCTRecordNoCert
    (by decide) (by decide) (by decide) (by decide)
    sampleCTIssuerGroup (by decide) sampleCTCertGroup (by decide)
